import Mathlib

/-!
Verification development for the Log Management Engine of galaplate
(`pkg/controllers/log_controller.go`).  The Go functions are shallowly
embedded as executable Lean definitions; filesystem and standard-library
effects (directory walks, `os.Remove`, `json.Unmarshal`) are made explicit
as parameters or environment records.
-/

namespace Galaplate

/-- Model of Go `unicode.IsSpace` restricted to the Latin-1 range
(`\t \n \v \f \r ' '` plus U+0085 and U+00A0); the controller only ever
trims ASCII log lines, so the higher Unicode space points are not modelled. -/
def isGoSpace (c : Char) : Bool :=
  c.toNat = 9 || c.toNat = 10 || c.toNat = 11 || c.toNat = 12 ||
  c.toNat = 13 || c.toNat = 32 || c.toNat = 133 || c.toNat = 160

/-- Model of Go `strings.TrimSpace`: drop leading and trailing space characters. -/
def goTrimSpace (s : String) : String :=
  ⟨((s.data.dropWhile isGoSpace).reverse.dropWhile isGoSpace).reverse⟩

/-- Model of Go `strings.ToLower` (ASCII range of `unicode.ToLower`; all level
strings handled by the controller are ASCII). -/
def goToLower (s : String) : String :=
  ⟨s.data.map Char.toLower⟩

/-- Numeric value of a decimal digit character. -/
def digitVal (c : Char) : Nat := c.toNat - 48

/-- Model of Go `strconv.Atoi`: optional sign, one or more decimal digits,
nothing else; values outside the 64-bit `int` range yield `ErrRange`,
i.e. `none` here (the callers only use the value when `err == nil`). -/
def goAtoi (s : String) : Option Int :=
  let withSign : Int × List Char :=
    match s.data with
    | '+' :: rest => (1, rest)
    | '-' :: rest => (-1, rest)
    | cs => (1, cs)
  let sign := withSign.1
  let digits := withSign.2
  if digits.isEmpty then none
  else if digits.all Char.isDigit then
    let n : Nat := digits.foldl (fun acc c => acc * 10 + digitVal c) 0
    let v : Int := sign * n
    if v < -(2 ^ 63) ∨ (2 ^ 63 - 1) < v then none else some v
  else none

/-- The wall-clock fields of a Go `time.Time` as produced by `time.Parse`
with the layouts used by the controller (all of which carry at most a fixed
zone offset, which `Format` never re-applies, so only the fields matter). -/
structure GoDateTime where
  year : Nat
  month : Nat
  day : Nat
  hour : Nat
  minute : Nat
  second : Nat
deriving DecidableEq

/-- Gregorian leap-year rule (Go `time.isLeap`). -/
def isLeap (y : Nat) : Bool := y % 4 = 0 && (y % 100 ≠ 0 || y % 400 = 0)

/-- Days in a month (Go `time.daysIn`). -/
def daysInMonth (y m : Nat) : Nat :=
  if m = 2 then (if isLeap y then 29 else 28)
  else if m = 4 ∨ m = 6 ∨ m = 9 ∨ m = 11 then 30
  else 31

/-- Days in all years `0, …, y-1` of the proleptic Gregorian calendar:
365 per year plus one for every leap year below `y` (computed, as Go does,
with the division-based count of multiples of 4, 100 and 400). -/
def daysBeforeYear (y : Nat) : Nat :=
  365 * y + (y + 3) / 4 - (y + 99) / 100 + (y + 399) / 400

/-- Days in the months `1, …, m-1` of year `y`. -/
def daysBeforeMonth (y m : Nat) : Nat :=
  (List.range (m - 1)).foldl (fun acc i => acc + daysInMonth y (i + 1)) 0

/-- Absolute second count of a wall-clock instant (UTC); Go `Time.Before` /
`Time.After` on the controller's parsed times compare exactly these counts,
and `Add` of a second-granularity duration adds to it. -/
def toSecs (t : GoDateTime) : Nat :=
  (daysBeforeYear t.year + daysBeforeMonth t.year t.month + (t.day - 1)) * 86400
    + t.hour * 3600 + t.minute * 60 + t.second

/-- Read exactly two decimal digits (Go `getnum` with `fixed = true`). -/
def take2 : List Char → Option (Nat × List Char)
  | c1 :: c2 :: rest =>
      if c1.isDigit && c2.isDigit then some (digitVal c1 * 10 + digitVal c2, rest)
      else none
  | _ => none

/-- Read exactly four decimal digits (Go `stdLongYear`). -/
def take4 : List Char → Option (Nat × List Char)
  | c1 :: c2 :: c3 :: c4 :: rest =>
      if c1.isDigit && c2.isDigit && c3.isDigit && c4.isDigit then
        some (((digitVal c1 * 10 + digitVal c2) * 10 + digitVal c3) * 10 + digitVal c4, rest)
      else none
  | _ => none

/-- Read one or two decimal digits (Go `getnum` with `fixed = false`,
used by the `15` hour verb). -/
def take1or2 : List Char → Option (Nat × List Char)
  | [] => none
  | [c1] => if c1.isDigit then some (digitVal c1, []) else none
  | c1 :: c2 :: rest =>
      if c1.isDigit then
        if c2.isDigit then some (digitVal c1 * 10 + digitVal c2, rest)
        else some (digitVal c1, c2 :: rest)
      else none

/-- Consume one expected literal character. -/
def expectChar (c : Char) : List Char → Option (List Char)
  | x :: rest => if x = c then some rest else none
  | [] => none

/-- Model of Go `time.Parse("2006-01-02 15:04:05", s)`: fixed-width year,
month, day, minute and second, a one-or-two digit hour, exact literal
separators, no trailing text, and the range checks Go applies
(month 1–12, day within the month, hour ≤ 23, minute/second ≤ 59). -/
def parseGoDateTime (s : String) : Option GoDateTime :=
  match take4 s.data with
  | none => none
  | some (y, r1) =>
    match expectChar '-' r1 with
    | none => none
    | some r2 =>
      match take2 r2 with
      | none => none
      | some (mo, r3) =>
        match expectChar '-' r3 with
        | none => none
        | some r4 =>
          match take2 r4 with
          | none => none
          | some (d, r5) =>
            match expectChar ' ' r5 with
            | none => none
            | some r6 =>
              match take1or2 r6 with
              | none => none
              | some (h, r7) =>
                match expectChar ':' r7 with
                | none => none
                | some r8 =>
                  match take2 r8 with
                  | none => none
                  | some (mi, r9) =>
                    match expectChar ':' r9 with
                    | none => none
                    | some r10 =>
                      match take2 r10 with
                      | none => none
                      | some (sec, r11) =>
                        if r11.isEmpty ∧ 1 ≤ mo ∧ mo ≤ 12 ∧ 1 ≤ d ∧
                            d ≤ daysInMonth y mo ∧ h ≤ 23 ∧ mi ≤ 59 ∧ sec ≤ 59 then
                          some ⟨y, mo, d, h, mi, sec⟩
                        else none

/-- Model of Go `time.Parse("2006-01-02", s)`: fixed-width date, exact
separators, no trailing text, month/day range checks; the resulting time
is midnight of that day. -/
def parseGoDate (s : String) : Option GoDateTime :=
  match take4 s.data with
  | none => none
  | some (y, r1) =>
    match expectChar '-' r1 with
    | none => none
    | some r2 =>
      match take2 r2 with
      | none => none
      | some (mo, r3) =>
        match expectChar '-' r3 with
        | none => none
        | some r4 =>
          match take2 r4 with
          | none => none
          | some (d, r5) =>
            if r5.isEmpty ∧ 1 ≤ mo ∧ mo ≤ 12 ∧ 1 ≤ d ∧ d ≤ daysInMonth y mo then
              some ⟨y, mo, d, 0, 0, 0⟩
            else none

/-- Zone suffix of an RFC 3339 string: `Z`, or `±hh:mm` with `hh ≤ 23`,
`mm ≤ 59` (Go `parseRFC3339`). -/
def parseRFC3339Zone : List Char → Bool
  | ['Z'] => true
  | [sgn, z1, z2, ':', z3, z4] =>
      (sgn = '+' || sgn = '-') && z1.isDigit && z2.isDigit && z3.isDigit && z4.isDigit &&
        decide (digitVal z1 * 10 + digitVal z2 ≤ 23) &&
        decide (digitVal z3 * 10 + digitVal z4 ≤ 59)
  | _ => false

/-- Model of Go `time.Parse(time.RFC3339, s)` (the strict parser used since
Go 1.20): fixed-position `YYYY-MM-DDTHH:MM:SS`, an optional `.digits`
fraction, then `Z` or a `±hh:mm` offset.  Only the wall-clock fields are
returned: `Format` re-renders the time in the location the string carried,
so the rendered fields are exactly those written in the string. -/
def parseRFC3339 (s : String) : Option GoDateTime :=
  match take4 s.data with
  | none => none
  | some (y, r1) =>
    match expectChar '-' r1 with
    | none => none
    | some r2 =>
      match take2 r2 with
      | none => none
      | some (mo, r3) =>
        match expectChar '-' r3 with
        | none => none
        | some r4 =>
          match take2 r4 with
          | none => none
          | some (d, r5) =>
            match expectChar 'T' r5 with
            | none => none
            | some r6 =>
              match take2 r6 with
              | none => none
              | some (h, r7) =>
                match expectChar ':' r7 with
                | none => none
                | some r8 =>
                  match take2 r8 with
                  | none => none
                  | some (mi, r9) =>
                    match expectChar ':' r9 with
                    | none => none
                    | some r10 =>
                      match take2 r10 with
                      | none => none
                      | some (sec, r11) =>
                        let afterFrac : List Char :=
                          match r11 with
                          | '.' :: c :: rest =>
                              if c.isDigit then rest.dropWhile Char.isDigit
                              else '.' :: c :: rest
                          | other => other
                        if parseRFC3339Zone afterFrac ∧ 1 ≤ mo ∧ mo ≤ 12 ∧ 1 ≤ d ∧
                            d ≤ daysInMonth y mo ∧ h ≤ 23 ∧ mi ≤ 59 ∧ sec ≤ 59 then
                          some ⟨y, mo, d, h, mi, sec⟩
                        else none

/-- Zero-pad a number to two digits (Go zero-padded format verbs). -/
def pad2 (n : Nat) : String := if n < 10 then "0" ++ toString n else toString n

/-- Zero-pad a number to four digits (Go `2006` year verb, years 0–9999). -/
def pad4 (n : Nat) : String :=
  if n < 10 then "000" ++ toString n
  else if n < 100 then "00" ++ toString n
  else if n < 1000 then "0" ++ toString n
  else toString n

/-- Model of Go `t.Format("2006-01-02 15:04:05")` on the wall-clock fields. -/
def formatDisplay (t : GoDateTime) : String :=
  pad4 t.year ++ "-" ++ pad2 t.month ++ "-" ++ pad2 t.day ++ " " ++
    pad2 t.hour ++ ":" ++ pad2 t.minute ++ ":" ++ pad2 t.second

/-- The `LogEntry` record of the controller.  `additional_info` is a
`map[string]any` in Go; it is modelled as an association list from string
keys to (string-rendered) values, which the engine only ever carries along
or looks keys up in. -/
structure LogEntry where
  timestamp : String
  level : String
  message : String
  additionalInfo : List (String × String)
deriving DecidableEq

/-- The normalization `parseLogFile` applies to each decoded entry:
re-render an RFC 3339 timestamp to the display format (leaving a
non-empty, non-RFC 3339 value as-is), default an empty level to
`"info"`, lowercase a non-empty level. -/
def normalizeEntry (e : LogEntry) : LogEntry :=
  let ts :=
    if e.timestamp ≠ "" then
      match parseRFC3339 e.timestamp with
      | some t => formatDisplay t
      | none => e.timestamp
    else e.timestamp
  let lv := if e.level = "" then "info" else goToLower e.level
  { e with timestamp := ts, level := lv }

/-- One in-place swap `logs[i], logs[j] = logs[j], logs[i]` of the source's
`reverseSlice` loop body. -/
def listSwap (l : List LogEntry) (i j : Nat) : List LogEntry :=
  match l.get? i, l.get? j with
  | some x, some y => (l.set i y).set j x
  | _, _ => l

/-- The source's `reverseSlice`: for `i` from `0` to `len/2 - 1`, swap
positions `i` and `len - 1 - i`. -/
def reverseSlice (logs : List LogEntry) : List LogEntry :=
  (List.range (logs.length / 2)).foldl
    (fun acc i => listSwap acc i (logs.length - 1 - i)) logs

/-- The line-processing loop of `parseLogFile`, over the file's lines in
on-disk order.  `decode` stands for `encoding/json.Unmarshal` into a
`LogEntry` (`none` = a decode error, which the loop silently skips, as it
skips blank lines); each decoded entry is normalized and appended, and the
accumulated slice is reversed by `reverseSlice` before being returned. -/
def parseLogFileLines (decode : String → Option LogEntry) (lines : List String) :
    List LogEntry :=
  reverseSlice
    (lines.foldl
      (fun acc rawLine =>
        let line := goTrimSpace rawLine
        if line = "" then acc
        else
          match decode line with
          | none => acc
          | some e => acc ++ [normalizeEntry e])
      [])

/-- The per-entry decision of `filterLogsByDate`: `true` exactly when the
loop body reaches the `append` with `include` still `true`. -/
def filterIncludes (dateFrom dateTo : String) (log : LogEntry) : Bool :=
  if log.timestamp = "" then false
  else
    match parseGoDateTime log.timestamp with
    | none => false
    | some logTime =>
      let include1 : Bool :=
        if dateFrom ≠ "" then
          match parseGoDate dateFrom with
          | some fromTime =>
              if toSecs logTime < toSecs fromTime then false else true
          | none => true
        else true
      let include2 : Bool :=
        if dateTo ≠ "" ∧ include1 = true then
          match parseGoDate dateTo with
          | some toTime =>
              if toSecs toTime + 86399 < toSecs logTime then false else include1
          | none => include1
        else include1
      include2

/-- The source's `filterLogsByDate`: identity when both bounds are empty,
otherwise a loop that appends each entry the bounds admit. -/
def filterLogsByDate (logs : List LogEntry) (dateFrom dateTo : String) :
    List LogEntry :=
  if dateFrom = "" ∧ dateTo = "" then logs
  else
    logs.foldl
      (fun acc log => if filterIncludes dateFrom dateTo log then acc ++ [log] else acc)
      []

/-- `Index`'s page-size sanitization: `page_size` absent (empty query value)
or not a positive number at most 500 leaves the default 50. -/
def sanitizePageSize (param : String) : Nat :=
  if param = "" then 50
  else
    match goAtoi param with
    | some ps => if 0 < ps ∧ ps ≤ 500 then ps.toNat else 50
    | none => 50

/-- `Index`'s page sanitization: `page` absent or not a positive number
leaves the default 1. -/
def sanitizePage (param : String) : Nat :=
  if param = "" then 1
  else
    match goAtoi param with
    | some p => if 0 < p then p.toNat else 1
    | none => 1

/-- `Index`'s total-page computation: `(totalLogs + pageSize - 1) / pageSize`
(stored in a temporary in the source), floored at 1. -/
def totalPagesCalc (totalLogs pageSize : Nat) : Nat :=
  if (totalLogs + pageSize - 1) / pageSize < 1 then 1
  else (totalLogs + pageSize - 1) / pageSize

/-- `Index`'s page clamp: a requested page beyond `totalPages` becomes
`totalPages`. -/
def clampPage (page totalPages : Nat) : Nat :=
  if totalPages < page then totalPages else page

/-- `Index`'s slice `filteredLogs[startIdx:endIdx]` with
`startIdx = (page-1)*pageSize` and `endIdx = min(startIdx+pageSize, total)`. -/
def paginateSlice (logs : List LogEntry) (page pageSize : Nat) : List LogEntry :=
  let totalLogs := logs.length
  let startIdx := (page - 1) * pageSize
  let endIdx0 := startIdx + pageSize
  let endIdx := if totalLogs < endIdx0 then totalLogs else endIdx0
  (logs.take endIdx).drop startIdx

/-- Outcome of the `Export` handler.  The payload constructors carry the
structured data the handler serializes (the textual JSON/CSV rendering by
`encoding/json` and `fmt` is outside the model); `dirError` and `fileError`
are the 500 responses, `noFileSpecified` and `invalidFormat` the 400 ones. -/
inductive ExportResult where
  | dirError
  | noFileSpecified
  | fileError
  | jsonPayload (file : String) (totalLogs : Nat) (logs : List LogEntry)
  | csvPayload (rows : List LogEntry)
  | invalidFormat
deriving DecidableEq

/-- The `Export` handler.  `logFilesRes` is the result of `getLogFiles`
(`none` = directory read error) and `parseRes` the result of
`parseLogFile` on the selected file (`none` = file read error). -/
def exportLogs (logFilesRes : Option (List String))
    (fileParam dateFrom dateTo format : String)
    (parseRes : Option (List LogEntry)) : ExportResult :=
  match logFilesRes with
  | none => .dirError
  | some logFiles =>
    if fileParam = "" ∨ logFiles = [] then .noFileSpecified
    else
      match parseRes with
      | none => .fileError
      | some logs =>
        let filteredLogs := filterLogsByDate logs dateFrom dateTo
        if format = "json" then .jsonPayload fileParam filteredLogs.length filteredLogs
        else if format = "csv" then .csvPayload filteredLogs
        else .invalidFormat

/-- A regular file under the log directory as the walks observe it:
its path, its size in bytes and its modification time (in seconds on the
same scale as `toSecs`; only comparisons against the cutoff matter). -/
structure GoFileInfo where
  path : String
  size : Int
  mtime : Int
deriving DecidableEq

/-- The filesystem faults the walks tolerate per file: `statFails p` means
`d.Info()` returns an error for `p`, `removeFails p` means `os.Remove p`
returns an error (deterministic within a run and, for the idempotence
claim, across the two runs). -/
structure FsEnv where
  statFails : String → Bool
  removeFails : String → Bool

/-- Result of one `CleanupLogs` walk: the files still on disk afterwards,
the reported `deleted_count` and the reported accumulated size. -/
structure CleanupResult where
  remaining : List GoFileInfo
  deletedCount : Nat
  totalSize : Int
deriving DecidableEq

/-- One iteration of the `CleanupLogs` walk body on a (non-directory)
entry: a failed `d.Info()` is skipped; a file whose modification time is
strictly before the cutoff has its size added to `totalSize` and is then
removed, `deletedCount` growing only when `os.Remove` succeeds. -/
def cleanupStep (env : FsEnv) (cutoff : Int) (acc : CleanupResult)
    (f : GoFileInfo) : CleanupResult :=
  if env.statFails f.path then { acc with remaining := acc.remaining ++ [f] }
  else if f.mtime < cutoff then
    let acc1 : CleanupResult := { acc with totalSize := acc.totalSize + f.size }
    if env.removeFails f.path then { acc1 with remaining := acc1.remaining ++ [f] }
    else { acc1 with deletedCount := acc1.deletedCount + 1 }
  else { acc with remaining := acc.remaining ++ [f] }

/-- The `CleanupLogs` directory walk over the (non-directory) files under
the log directory, in walk order. -/
def cleanupLogsWalk (env : FsEnv) (cutoff : Int) (files : List GoFileInfo) :
    CleanupResult :=
  files.foldl (cleanupStep env cutoff) ⟨[], 0, 0⟩

/-- `CleanupLogs`' retention-parameter sanitization: `days` defaults to the
string "30" and any value that `strconv.Atoi` rejects, or that is not
positive, leaves the default 30. -/
def cleanupDays (daysStr : String) : Int :=
  match goAtoi daysStr with
  | some d => if 0 < d then d else 30
  | none => 30

/-- The cutoff `time.Now().AddDate(0, 0, -days)`: `days` calendar days
before `now` (86400 seconds each on the UTC second scale of the model). -/
def cleanupCutoff (now days : Int) : Int := now - days * 86400

/-- Accumulator of the `GetLogStats` walk: file count, cumulative size and
the oldest/newest modification times seen so far (`none` models the zero
`time.Time` the Go variables start from). -/
structure StatsResult where
  totalFiles : Nat
  totalSize : Int
  oldest : Option Int
  newest : Option Int
deriving DecidableEq

/-- One iteration of the `GetLogStats` walk body on a (non-directory)
entry: `totalFiles` is incremented before `d.Info()` is consulted, and a
failed `d.Info()` skips the size/date accumulation only. -/
def statsStep (env : FsEnv) (acc : StatsResult) (f : GoFileInfo) : StatsResult :=
  let acc1 : StatsResult := { acc with totalFiles := acc.totalFiles + 1 }
  if env.statFails f.path then acc1
  else
    { acc1 with
      totalSize := acc1.totalSize + f.size
      oldest :=
        match acc1.oldest with
        | none => some f.mtime
        | some o => if f.mtime < o then some f.mtime else some o
      newest :=
        match acc1.newest with
        | none => some f.mtime
        | some n => if n < f.mtime then some f.mtime else some n }

/-- The `GetLogStats` directory walk over the (non-directory) files under
the log directory, in walk order. -/
def getLogStatsWalk (env : FsEnv) (files : List GoFileInfo) : StatsResult :=
  files.foldl (statsStep env) ⟨0, 0, none, none⟩

/-- Spec-side description of one parsed line: `none` for a blank or
undecodable line, otherwise the normalized entry. -/
def parsedLine (decode : String → Option LogEntry) (rawLine : String) :
    Option LogEntry :=
  let line := goTrimSpace rawLine
  if line = "" then none else (decode line).map normalizeEntry

/-- Files the cleanup walk actually deletes. -/
def cleanupDeletes (env : FsEnv) (cutoff : Int) (f : GoFileInfo) : Bool :=
  !env.statFails f.path && decide (f.mtime < cutoff) && !env.removeFails f.path

/-- Files the cleanup walk adds to the reported size (its metadata is
readable and its modification time is before the cutoff — whether or not
the subsequent `os.Remove` succeeds). -/
def cleanupSized (env : FsEnv) (cutoff : Int) (f : GoFileInfo) : Bool :=
  !env.statFails f.path && decide (f.mtime < cutoff)

/-- Files that survive the cleanup walk. -/
def cleanupKeeps (env : FsEnv) (cutoff : Int) (f : GoFileInfo) : Bool :=
  env.statFails f.path || decide (cutoff ≤ f.mtime) || env.removeFails f.path

/-- Files whose metadata the stats walk reads successfully. -/
def statOk (env : FsEnv) (f : GoFileInfo) : Bool := !env.statFails f.path

/-- The oldest-file accumulation of the stats walk, as a fold over
modification times. -/
def minFold (o : Option Int) (xs : List Int) : Option Int :=
  xs.foldl
    (fun o mt =>
      match o with
      | none => some mt
      | some v => if mt < v then some mt else some v) o

/-- The newest-file accumulation of the stats walk, as a fold over
modification times. -/
def maxFold (o : Option Int) (xs : List Int) : Option Int :=
  xs.foldl
    (fun o mt =>
      match o with
      | none => some mt
      | some v => if v < mt then some mt else some v) o

/-- Demo entries and environments used by concrete instances. -/
def demoEntryJan1 : LogEntry := ⟨"2025-01-01 00:00:00", "info", "january first", []⟩

/-- Demo entry dated 2025-01-15. -/
def demoEntryJan15 : LogEntry := ⟨"2025-01-15 00:00:00", "info", "january fifteenth", []⟩

/-- Demo entry dated 2025-02-01. -/
def demoEntryFeb1 : LogEntry := ⟨"2025-02-01 00:00:00", "info", "february first", []⟩

/-- Demo entry with an empty timestamp. -/
def demoEntryNoTs : LogEntry := ⟨"", "info", "no timestamp", []⟩

/-- A concrete stand-in for `encoding/json.Unmarshal` on three known lines. -/
def demoDecode : String → Option LogEntry := fun s =>
  if s = "A" then some ⟨"2025-01-01T01:00:00Z", "INFO", "A", []⟩
  else if s = "B" then some ⟨"2025-01-02T01:00:00Z", "", "B", []⟩
  else if s = "C" then some ⟨"2025-01-03T01:00:00Z", "ERROR", "C", []⟩
  else none

/-- Three demo files (path, size, modification time). -/
def demoFiles : List GoFileInfo :=
  [⟨"a.log", 100, 0⟩, ⟨"b.log", 7, 3⟩, ⟨"c.log", 5, 20⟩]

/-- Demo environment in which deleting `a.log` fails. -/
def demoEnvRemoveFail : FsEnv := ⟨fun _ => false, fun p => p = "a.log"⟩

theorem foldl_append_filter (p : LogEntry → Bool) :
    ∀ (xs acc : List LogEntry),
      xs.foldl (fun acc x => if p x then acc ++ [x] else acc) acc
        = acc ++ xs.filter p := by
  intro xs
  induction xs with
  | nil => intro acc; simp
  | cons x xs ih =>
      intro acc
      by_cases hx : p x
      · simp [List.foldl_cons, hx, ih, List.filter_cons]
      · simp [List.foldl_cons, hx, ih, List.filter_cons]

theorem filterLogsByDate_eq_filter (logs : List LogEntry) (dateFrom dateTo : String)
    (h : ¬(dateFrom = "" ∧ dateTo = "")) :
    filterLogsByDate logs dateFrom dateTo
      = logs.filter (filterIncludes dateFrom dateTo) := by
  unfold filterLogsByDate
  rw [if_neg h, foldl_append_filter, List.nil_append]

theorem parse_foldl_eq_filterMap (decode : String → Option LogEntry) :
    ∀ (lines : List String) (acc : List LogEntry),
      lines.foldl
        (fun acc rawLine =>
          let line := goTrimSpace rawLine
          if line = "" then acc
          else
            match decode line with
            | none => acc
            | some e => acc ++ [normalizeEntry e])
        acc
      = acc ++ lines.filterMap (parsedLine decode) := by
  intro lines
  induction lines with
  | nil => intro acc; simp
  | cons l lines ih =>
      intro acc
      by_cases hblank : goTrimSpace l = ""
      · simp [List.foldl_cons, hblank, ih, List.filterMap_cons, parsedLine]
      · cases hdec : decode (goTrimSpace l) with
        | none => simp [List.foldl_cons, hblank, hdec, ih, List.filterMap_cons, parsedLine]
        | some e => simp [List.foldl_cons, hblank, hdec, ih, List.filterMap_cons, parsedLine]

theorem cleanup_foldl_spec (env : FsEnv) (cutoff : Int) :
    ∀ (files : List GoFileInfo) (acc : CleanupResult),
      files.foldl (cleanupStep env cutoff) acc =
        ⟨acc.remaining ++ files.filter (cleanupKeeps env cutoff),
         acc.deletedCount + (files.filter (cleanupDeletes env cutoff)).length,
         acc.totalSize + ((files.filter (cleanupSized env cutoff)).map GoFileInfo.size).sum⟩ := by
  intro files
  induction files with
  | nil => intro acc; simp
  | cons f files ih =>
      intro acc
      rw [List.foldl_cons, ih]
      by_cases hs : env.statFails f.path
      · simp [cleanupStep, cleanupKeeps, cleanupDeletes, cleanupSized, hs,
          List.filter_cons]
      · by_cases hm : f.mtime < cutoff
        · have hm' : ¬(cutoff ≤ f.mtime) := by omega
          by_cases hr : env.removeFails f.path
          · simp [cleanupStep, cleanupKeeps, cleanupDeletes, cleanupSized, hs, hm, hm', hr,
              List.filter_cons, add_assoc]
          · simp [cleanupStep, cleanupKeeps, cleanupDeletes, cleanupSized, hs, hm, hm', hr,
              List.filter_cons, add_assoc]
            omega
        · have hm' : cutoff ≤ f.mtime := by omega
          simp [cleanupStep, cleanupKeeps, cleanupDeletes, cleanupSized, hs, hm, hm',
            List.filter_cons]

theorem minFold_some : ∀ (xs : List Int) (v : Int),
    minFold (some v) xs = some (xs.foldl min v) := by
  intro xs
  induction xs with
  | nil => intro v; rfl
  | cons x xs ih =>
      intro v
      have hmin : (if x < v then x else v) = min v x := by
        rcases lt_or_le x v with h | h
        · simp [h, min_eq_right (le_of_lt h)]
        · simp [not_lt.mpr h, min_eq_left h]
      simp only [minFold, List.foldl_cons] at *
      have hstep : (if x < v then some x else some v) = some (min v x) := by
        rw [← hmin]; by_cases h : x < v <;> simp [h]
      rw [hstep]
      exact ih (min v x)

theorem maxFold_some : ∀ (xs : List Int) (v : Int),
    maxFold (some v) xs = some (xs.foldl max v) := by
  intro xs
  induction xs with
  | nil => intro v; rfl
  | cons x xs ih =>
      intro v
      have hmax : (if v < x then x else v) = max v x := by
        rcases lt_or_le v x with h | h
        · simp [h, max_eq_right (le_of_lt h)]
        · simp [not_lt.mpr h, max_eq_left h]
      simp only [maxFold, List.foldl_cons] at *
      have hstep : (if v < x then some x else some v) = some (max v x) := by
        rw [← hmax]; by_cases h : v < x <;> simp [h]
      rw [hstep]
      exact ih (max v x)

theorem minFold_none_eq_min? (xs : List Int) : minFold none xs = xs.min? := by
  cases xs with
  | nil => rfl
  | cons x xs => rw [List.min?]; exact minFold_some xs x

theorem maxFold_none_eq_max? (xs : List Int) : maxFold none xs = xs.max? := by
  cases xs with
  | nil => rfl
  | cons x xs => rw [List.max?]; exact maxFold_some xs x

theorem stats_foldl_spec (env : FsEnv) :
    ∀ (files : List GoFileInfo) (acc : StatsResult),
      files.foldl (statsStep env) acc =
        ⟨acc.totalFiles + files.length,
         acc.totalSize + ((files.filter (statOk env)).map GoFileInfo.size).sum,
         minFold acc.oldest ((files.filter (statOk env)).map GoFileInfo.mtime),
         maxFold acc.newest ((files.filter (statOk env)).map GoFileInfo.mtime)⟩ := by
  intro files
  induction files with
  | nil => intro acc; simp [minFold, maxFold]
  | cons f files ih =>
      intro acc
      rw [List.foldl_cons, ih]
      by_cases hs : env.statFails f.path
      · simp [statsStep, statOk, hs, List.filter_cons, Nat.add_assoc, Nat.add_comm 1]
      · simp [statsStep, statOk, hs, List.filter_cons, minFold, maxFold, add_assoc]
        omega

theorem length_listSwap (l : List LogEntry) (i j : Nat) :
    (listSwap l i j).length = l.length := by
  unfold listSwap
  cases hx : l.get? i with
  | none => rfl
  | some x =>
      cases hy : l.get? j with
      | none => rfl
      | some y => simp

theorem getElem?_listSwap (l : List LogEntry) (i j k : Nat)
    (hi : i < l.length) (hj : j < l.length) :
    (listSwap l i j)[k]? =
      if k = j then l[i]? else if k = i then l[j]? else l[k]? := by
  unfold listSwap
  have hx : l.get? i = some l[i] := by
    rw [List.get?_eq_getElem?]; exact List.getElem?_eq_getElem hi
  have hy : l.get? j = some l[j] := by
    rw [List.get?_eq_getElem?]; exact List.getElem?_eq_getElem hj
  rw [hx, hy]
  simp only [List.getElem?_set, List.length_set]
  by_cases hkj : k = j
  · simp [hkj, hj, List.getElem?_eq_getElem hi]
  · by_cases hki : k = i
    · have hij : ¬j = i := fun h => hkj (hki.trans h.symm)
      have hij' : ¬i = j := fun h => hij h.symm
      simp [hki, hij, hij', hi, List.getElem?_eq_getElem hj]
    · simp [Ne.symm hkj, Ne.symm hki, hkj, hki]

theorem swapLoop_spec (logs : List LogEntry) :
    ∀ k, k ≤ logs.length / 2 →
      ((List.range k).foldl
          (fun acc i => listSwap acc i (logs.length - 1 - i)) logs).length
        = logs.length ∧
      ∀ m, m < logs.length →
        ((List.range k).foldl
            (fun acc i => listSwap acc i (logs.length - 1 - i)) logs)[m]?
          = if m < k ∨ logs.length - k ≤ m then logs[logs.length - 1 - m]?
            else logs[m]? := by
  intro k
  induction k with
  | zero =>
      intro _
      refine ⟨rfl, ?_⟩
      intro m hm
      have : ¬(m < 0 ∨ logs.length - 0 ≤ m) := by omega
      rw [if_neg this]
      simp only [List.range_zero, List.foldl_nil]
  | succ k ih =>
      intro hk
      have hk' : k ≤ logs.length / 2 := by omega
      obtain ⟨ihlen, ihget⟩ := ih hk'
      have hn2 : 2 * k + 2 ≤ logs.length := by omega
      set F := (List.range k).foldl
        (fun acc i => listSwap acc i (logs.length - 1 - i)) logs with hF
      have hstep : (List.range (k + 1)).foldl
          (fun acc i => listSwap acc i (logs.length - 1 - i)) logs
          = listSwap F k (logs.length - 1 - k) := by
        rw [List.range_succ, List.foldl_append, List.foldl_cons, List.foldl_nil]
      have hkF : k < F.length := by omega
      have hjF : logs.length - 1 - k < F.length := by omega
      constructor
      · rw [hstep, length_listSwap]; exact ihlen
      · intro m hm
        rw [hstep, getElem?_listSwap F k (logs.length - 1 - k) m hkF hjF]
        by_cases hmj : m = logs.length - 1 - k
        · rw [if_pos hmj]
          rw [ihget k (by omega)]
          rw [if_neg (show ¬(k < k ∨ logs.length - k ≤ k) from by omega)]
          rw [if_pos (show m < k + 1 ∨ logs.length - (k + 1) ≤ m from by omega)]
          rw [show logs.length - 1 - m = k from by omega]
        · rw [if_neg hmj]
          by_cases hmi : m = k
          · rw [if_pos hmi]
            have h2 : ¬(logs.length - 1 - k < k ∨
                logs.length - k ≤ logs.length - 1 - k) := by omega
            rw [ihget (logs.length - 1 - k) (by omega), if_neg h2]
            rw [if_pos (by omega : m < k + 1 ∨ logs.length - (k + 1) ≤ m)]
            rw [show logs.length - 1 - m = logs.length - 1 - k from by omega]
          · rw [if_neg hmi, ihget m hm]
            by_cases hc : m < k ∨ logs.length - k ≤ m
            · rw [if_pos hc, if_pos (by omega)]
            · rw [if_neg hc, if_neg (by omega)]

theorem reverseSlice_eq_reverse (logs : List LogEntry) :
    reverseSlice logs = logs.reverse := by
  obtain ⟨hlen, hget⟩ := swapLoop_spec logs (logs.length / 2) le_rfl
  apply List.ext_getElem?
  intro m
  by_cases hm : m < logs.length
  · have hrev : logs.reverse[m]? = logs[logs.length - 1 - m]? :=
      List.getElem?_reverse hm
    rw [hrev]
    show ((List.range (logs.length / 2)).foldl
        (fun acc i => listSwap acc i (logs.length - 1 - i)) logs)[m]? = _
    rw [hget m hm]
    by_cases hc : m < logs.length / 2 ∨ logs.length - logs.length / 2 ≤ m
    · rw [if_pos hc]
    · rw [if_neg hc]
      rw [show logs.length - 1 - m = m from by omega]
  · have h1 : (reverseSlice logs)[m]? = none := by
      apply List.getElem?_eq_none
      show ((List.range (logs.length / 2)).foldl
        (fun acc i => listSwap acc i (logs.length - 1 - i)) logs).length ≤ m
      omega
    have h2 : logs.reverse[m]? = none := by
      apply List.getElem?_eq_none
      rw [List.length_reverse]; omega
    rw [h1, h2]

theorem parseLogFileLines_eq (decode : String → Option LogEntry)
    (lines : List String) :
    parseLogFileLines decode lines
      = (lines.filterMap (parsedLine decode)).reverse := by
  unfold parseLogFileLines
  rw [parse_foldl_eq_filterMap, List.nil_append, reverseSlice_eq_reverse]

theorem sanitizePageSize_mem (s : String) :
    0 < sanitizePageSize s ∧ sanitizePageSize s ≤ 500 := by
  unfold sanitizePageSize
  by_cases he : s = ""
  · simp [he]
  · simp only [he, if_false]
    cases hat : goAtoi s with
    | none => simp
    | some ps =>
        simp only
        split <;> omega

theorem sanitizePage_pos (s : String) : 1 ≤ sanitizePage s := by
  unfold sanitizePage
  by_cases he : s = ""
  · simp [he]
  · simp only [he, if_false]
    cases hat : goAtoi s with
    | none => simp
    | some p =>
        simp only
        split <;> omega

theorem totalPagesCalc_pos (total P : Nat) : 1 ≤ totalPagesCalc total P := by
  unfold totalPagesCalc
  split
  · omega
  · omega

theorem totalPagesCalc_succ (t P : Nat) (hP : 0 < P) :
    totalPagesCalc (t + 1) P = t / P + 1 := by
  unfold totalPagesCalc
  have h1 : t + 1 + P - 1 = t + P := by omega
  rw [h1, Nat.add_div_right t hP]
  rw [if_neg (Nat.not_lt.mpr (Nat.le_add_left 1 (t / P)))]

theorem totalPagesCalc_zero (P : Nat) : totalPagesCalc 0 P = 1 := by
  unfold totalPagesCalc
  rcases Nat.eq_zero_or_pos P with hP | hP
  · simp [hP]
  · have : (0 + P - 1) / P = 0 := Nat.div_eq_of_lt (by omega)
    rw [this]
    rfl

theorem totalPagesCalc_mul_ge (total P : Nat) (hP : 0 < P) :
    total ≤ totalPagesCalc total P * P := by
  cases total with
  | zero => exact Nat.zero_le _
  | succ t =>
      rw [totalPagesCalc_succ t P hP]
      have hdm : P * (t / P) + t % P = t := Nat.div_add_mod t P
      have hr : t % P < P := Nat.mod_lt _ hP
      have hexp : (t / P + 1) * P = P * (t / P) + P := by ring
      rw [hexp]
      omega

theorem totalPagesCalc_least (total P m : Nat) (hP : 0 < P) (hm : 1 ≤ m)
    (h : total ≤ m * P) : totalPagesCalc total P ≤ m := by
  cases total with
  | zero => rw [totalPagesCalc_zero]; exact hm
  | succ t =>
      rw [totalPagesCalc_succ t P hP]
      have : t / P < m := (Nat.div_lt_iff_lt_mul hP).mpr (by omega)
      omega

theorem paginateSlice_first (logs : List LogEntry) (P : Nat) :
    paginateSlice logs 1 P = logs.take P := by
  unfold paginateSlice
  simp only [Nat.sub_self, Nat.zero_mul, Nat.zero_add, List.drop_zero]
  by_cases h : logs.length < P
  · rw [if_pos h, List.take_length, List.take_of_length_le (le_of_lt h)]
  · rw [if_neg h]

theorem paginateSlice_shift (logs : List LogEntry) (P i : Nat) :
    paginateSlice logs (i + 1 + 1) P = paginateSlice (logs.drop P) (i + 1) P := by
  unfold paginateSlice
  simp only [List.length_drop, Nat.add_sub_cancel]
  rw [List.drop_take, List.drop_take, List.drop_drop]
  have h1 : (i + 1) * P = i * P + P := by ring
  rw [h1, show i * P + P = P + i * P from by ring]
  congr 1
  generalize i * P = A
  split_ifs <;> omega

theorem join_paginate (P : Nat) :
    ∀ (n : Nat) (logs : List LogEntry), 1 ≤ n → logs.length ≤ n * P →
      ((List.range n).map (fun i => paginateSlice logs (i + 1) P)).flatten = logs := by
  intro n
  induction n with
  | zero => intro logs hn _; omega
  | succ n ih =>
      intro logs _ hlen
      by_cases hn0 : n = 0
      · subst hn0
        rw [show List.range 1 = [0] from by decide]
        simp only [List.map_cons, List.map_nil, List.flatten_cons,
          List.flatten_nil, List.append_nil, Nat.zero_add]
        exact paginateSlice_first logs P |>.trans
          (List.take_of_length_le (by omega))
      · have hn1 : 1 ≤ n := by omega
        rw [List.range_succ_eq_map]
        simp only [List.map_cons, List.flatten_cons, List.map_map, Function.comp_def,
          Nat.succ_eq_add_one, Nat.zero_add]
        rw [paginateSlice_first]
        have hrw : ((List.range n).map
              (fun i => paginateSlice logs (i + 1 + 1) P)).flatten
            = ((List.range n).map
              (fun i => paginateSlice (logs.drop P) (i + 1) P)).flatten := by
          congr 1
          apply List.map_congr_left
          intro i _
          exact paginateSlice_shift logs P i
        rw [hrw]
        have hlen' : (logs.drop P).length ≤ n * P := by
          rw [List.length_drop]
          have : (n + 1) * P = n * P + P := by ring
          omega
        rw [ih (logs.drop P) hn1 hlen']
        exact List.take_append_drop P logs

theorem parseGoDate_empty : parseGoDate "" = none := by decide

theorem parseGoDateTime_empty : parseGoDateTime "" = none := by decide

theorem parseRFC3339_empty : parseRFC3339 "" = none := by decide

theorem parseGoDate_ne_empty {s : String} {t : GoDateTime}
    (h : parseGoDate s = some t) : s ≠ "" := by
  intro he
  rw [he, parseGoDate_empty] at h
  exact Option.noConfusion h

theorem filterIncludes_of_parse (dF dT : String) (f t : GoDateTime)
    (hF : parseGoDate dF = some f) (hT : parseGoDate dT = some t)
    (log : LogEntry) :
    filterIncludes dF dT log =
      (match parseGoDateTime log.timestamp with
       | some lt =>
           decide (toSecs f ≤ toSecs lt) && decide (toSecs lt ≤ toSecs t + 86399)
       | none => false) := by
  have hdF : dF ≠ "" := parseGoDate_ne_empty hF
  have hdT : dT ≠ "" := parseGoDate_ne_empty hT
  unfold filterIncludes
  by_cases hts : log.timestamp = ""
  · rw [if_pos hts, hts, parseGoDateTime_empty]
  · rw [if_neg hts]
    cases hp : parseGoDateTime log.timestamp with
    | none => rfl
    | some lt =>
        simp only [hdF, hdT, ne_eq, not_false_eq_true, if_true, hF, hT]
        by_cases hlo : toSecs lt < toSecs f
        · have h1 : ¬toSecs f ≤ toSecs lt := by omega
          simp [hlo, h1]
        · have h1 : toSecs f ≤ toSecs lt := by omega
          by_cases hhi : toSecs t + 86399 < toSecs lt
          · have h2 : ¬toSecs lt ≤ toSecs t + 86399 := by omega
            simp [hlo, hhi, h1, h2]
          · have h2 : toSecs lt ≤ toSecs t + 86399 := by omega
            simp [hlo, hhi, h1, h2]

theorem filterIncludes_of_unparsable (dF dT : String)
    (hF : parseGoDate dF = none) (hT : parseGoDate dT = none)
    (log : LogEntry) :
    filterIncludes dF dT log = (parseGoDateTime log.timestamp).isSome := by
  unfold filterIncludes
  by_cases hts : log.timestamp = ""
  · rw [if_pos hts, hts, parseGoDateTime_empty]; rfl
  · rw [if_neg hts]
    cases hp : parseGoDateTime log.timestamp with
    | none => rfl
    | some lt =>
        by_cases hdF : dF ≠ ""
        · simp [hdF, hF, hT]
        · simp [hdF, hF, hT]

theorem filterIncludes_parses (dF dT : String) (log : LogEntry)
    (h : filterIncludes dF dT log = true) :
    (parseGoDateTime log.timestamp).isSome := by
  unfold filterIncludes at h
  by_cases hts : log.timestamp = ""
  · rw [if_pos hts] at h
    exact absurd h (by simp)
  · rw [if_neg hts] at h
    cases hp : parseGoDateTime log.timestamp with
    | none => rw [hp] at h; exact absurd h (by simp)
    | some lt => simp [hp]

/-- Claim C1 (amended).  For every filesystem state and retention parameter,
`CleanupLogs` uses the supplied positive day count (non-numeric or
non-positive input silently falls back to 30), attempts to delete exactly
the stat-readable files whose modification time is strictly before
`now − N days`, skips per-file stat and deletion failures without aborting
the walk, and reports a deleted-file count equal to the number of files
actually deleted — but the reported cumulative byte total covers every
stat-readable file whose modification time precedes the cutoff, including
files whose deletion failed, not only the files actually deleted. -/
theorem claim_C1_cleanup_accounting (env : FsEnv) (now : Int)
    (files : List GoFileInfo) (daysStr : String) :
    (∀ d : Int, goAtoi daysStr = some d → 0 < d → cleanupDays daysStr = d) ∧
    (∀ d : Int, goAtoi daysStr = some d → d ≤ 0 → cleanupDays daysStr = 30) ∧
    (goAtoi daysStr = none → cleanupDays daysStr = 30) ∧
    0 < cleanupDays daysStr ∧
    (cleanupLogsWalk env (cleanupCutoff now (cleanupDays daysStr)) files).deletedCount
      = (files.filter
          (cleanupDeletes env (cleanupCutoff now (cleanupDays daysStr)))).length ∧
    (cleanupLogsWalk env (cleanupCutoff now (cleanupDays daysStr)) files).totalSize
      = ((files.filter
          (cleanupSized env (cleanupCutoff now (cleanupDays daysStr)))).map
            GoFileInfo.size).sum ∧
    (cleanupLogsWalk env (cleanupCutoff now (cleanupDays daysStr)) files).remaining
      = files.filter (cleanupKeeps env (cleanupCutoff now (cleanupDays daysStr))) := by
  refine ⟨?_, ?_, ?_, ?_, ?_, ?_, ?_⟩
  · intro d hd hpos
    unfold cleanupDays
    rw [hd]
    show (if 0 < d then d else 30) = d
    rw [if_pos hpos]
  · intro d hd hnonpos
    unfold cleanupDays
    rw [hd]
    show (if 0 < d then d else 30) = 30
    rw [if_neg (by omega)]
  · intro hd
    unfold cleanupDays
    rw [hd]
  · unfold cleanupDays
    cases goAtoi daysStr with
    | none => decide
    | some d =>
        simp only
        split <;> omega
  · unfold cleanupLogsWalk
    rw [cleanup_foldl_spec]
    simp
  · unfold cleanupLogsWalk
    rw [cleanup_foldl_spec]
    simp
  · unfold cleanupLogsWalk
    rw [cleanup_foldl_spec]
    simp

/-- Concrete instance for claim C1: days parsing and the walk behaviour. -/
theorem claim_C1_witness :
    cleanupDays "7" = 7 ∧ cleanupDays "abc" = 30 ∧ cleanupDays "-2" = 30 ∧
    (cleanupLogsWalk demoEnvRemoveFail (cleanupCutoff 86407 (cleanupDays "1"))
        demoFiles).deletedCount
      = (demoFiles.filter
          (cleanupDeletes demoEnvRemoveFail
            (cleanupCutoff 86407 (cleanupDays "1")))).length := by
  refine ⟨?_, ?_, ?_, ?_⟩
  · exact (claim_C1_cleanup_accounting demoEnvRemoveFail 0 [] "7").1 7
      (by decide) (by decide)
  · exact (claim_C1_cleanup_accounting demoEnvRemoveFail 0 [] "abc").2.2.1
      (by decide)
  · exact (claim_C1_cleanup_accounting demoEnvRemoveFail 0 [] "-2").2.1 (-2)
      (by decide) (by decide)
  · exact (claim_C1_cleanup_accounting demoEnvRemoveFail 86407 demoFiles
      "1").2.2.2.2.1

/-- Counterexample to claim C1 as stated: with one eligible file whose
deletion fails, no file is deleted yet 100 bytes are reported reclaimed
(the count of bytes of files actually deleted would be 0). -/
theorem claim_C1_counterexample :
    (cleanupLogsWalk demoEnvRemoveFail 10 [⟨"a.log", 100, 0⟩]).deletedCount = 0 ∧
    (cleanupLogsWalk demoEnvRemoveFail 10 [⟨"a.log", 100, 0⟩]).totalSize = 100 ∧
    (100 : Int) ≠ 0 := by decide

/-- Claim C2 (amended).  When both date bounds are supplied and neither
parses as a date, the Date-Range Filter applies no date bound, but it is
not the identity: it returns the subsequence of entries whose timestamps
parse in the display format, dropping every entry with an empty or
unparsable timestamp. -/
theorem claim_C2_unparsable_bounds (logs : List LogEntry) (dF dT : String)
    (hne : dF ≠ "") (hF : parseGoDate dF = none) (hT : parseGoDate dT = none) :
    filterLogsByDate logs dF dT
      = logs.filter (fun e => (parseGoDateTime e.timestamp).isSome) := by
  rw [filterLogsByDate_eq_filter logs dF dT (fun h => hne h.1)]
  exact List.filter_congr (fun e _ => filterIncludes_of_unparsable dF dT hF hT e)

/-- Concrete instance for claim C2: equal unparsable bounds keep the
parsable-timestamp entry and drop the timestamp-less one. -/
theorem claim_C2_witness :
    filterLogsByDate [demoEntryNoTs, demoEntryJan15] "not-a-date" "not-a-date"
      = [demoEntryJan15] := by
  rw [claim_C2_unparsable_bounds [demoEntryNoTs, demoEntryJan15]
    "not-a-date" "not-a-date" (by decide) (by decide) (by decide)]
  decide

/-- Counterexample to claim C2 as stated: with both bounds equal and
unparsable, an entry with an empty timestamp is dropped, so the filter is
not the identity on the entry sequence. -/
theorem claim_C2_counterexample :
    filterLogsByDate [demoEntryNoTs] "not-a-date" "not-a-date"
      ≠ [demoEntryNoTs] := by decide

/-- Claim C3 (amended).  The effective page size defaults to 50 when the
parameter is absent; a supplied value inside `(0, 500]` is used and any
other supplied value (non-numeric, non-positive or above 500) is replaced
by the default 50 — so the effective size always lies in `(0, 500]`; the
page defaults to 1 and is always at least 1; `totalPages` is the least
page count `≥ 1` covering all entries (so a zero-entry result still
reports one page); and a requested page exceeding `totalPages` is clamped
down to `totalPages`. -/
theorem claim_C3_pagination_params (psParam pParam : String) (total : Nat) :
    (psParam = "" → sanitizePageSize psParam = 50) ∧
    0 < sanitizePageSize psParam ∧
    sanitizePageSize psParam ≤ 500 ∧
    (∀ ps : Int, goAtoi psParam = some ps → 0 < ps → ps ≤ 500 →
      sanitizePageSize psParam = ps.toNat) ∧
    (∀ ps : Int, goAtoi psParam = some ps → ¬(0 < ps ∧ ps ≤ 500) →
      sanitizePageSize psParam = 50) ∧
    (goAtoi psParam = none → sanitizePageSize psParam = 50) ∧
    (pParam = "" → sanitizePage pParam = 1) ∧
    1 ≤ sanitizePage pParam ∧
    1 ≤ totalPagesCalc total (sanitizePageSize psParam) ∧
    total ≤ totalPagesCalc total (sanitizePageSize psParam)
            * sanitizePageSize psParam ∧
    (∀ m : Nat, 1 ≤ m → total ≤ m * sanitizePageSize psParam →
      totalPagesCalc total (sanitizePageSize psParam) ≤ m) ∧
    (total = 0 → totalPagesCalc total (sanitizePageSize psParam) = 1) ∧
    (∀ pg tp : Nat, tp < pg → clampPage pg tp = tp) ∧
    (∀ pg tp : Nat, pg ≤ tp → clampPage pg tp = pg) := by
  have hps := sanitizePageSize_mem psParam
  refine ⟨?_, hps.1, hps.2, ?_, ?_, ?_, ?_, sanitizePage_pos pParam,
    totalPagesCalc_pos total _, totalPagesCalc_mul_ge total _ hps.1,
    fun m hm hmt => totalPagesCalc_least total _ m hps.1 hm hmt, ?_, ?_, ?_⟩
  · intro h
    unfold sanitizePageSize
    rw [if_pos h]
  · intro ps hat h1 h2
    have hne : psParam ≠ "" := by
      intro h
      rw [h] at hat
      exact Option.noConfusion ((by decide : goAtoi "" = none).symm.trans hat)
    unfold sanitizePageSize
    rw [if_neg hne, hat]
    show (if 0 < ps ∧ ps ≤ 500 then ps.toNat else 50) = ps.toNat
    rw [if_pos ⟨h1, h2⟩]
  · intro ps hat hnot
    have hne : psParam ≠ "" := by
      intro h
      rw [h] at hat
      exact Option.noConfusion ((by decide : goAtoi "" = none).symm.trans hat)
    unfold sanitizePageSize
    rw [if_neg hne, hat]
    show (if 0 < ps ∧ ps ≤ 500 then ps.toNat else 50) = 50
    rw [if_neg hnot]
  · intro hat
    unfold sanitizePageSize
    by_cases he : psParam = ""
    · rw [if_pos he]
    · rw [if_neg he, hat]
  · intro h
    unfold sanitizePage
    rw [if_pos h]
  · intro h
    rw [h, totalPagesCalc_zero]
  · intro pg tp h
    unfold clampPage
    rw [if_pos h]
  · intro pg tp h
    unfold clampPage
    rw [if_neg (by omega)]

/-- Concrete instance for claim C3: defaults, an in-range supplied size,
an above-range and a non-numeric supplied size both replaced by 50, the
one-page floor, minimality of the page count and both clamp cases. -/
theorem claim_C3_witness :
    sanitizePageSize "" = 50 ∧ sanitizePage "" = 1 ∧ sanitizePageSize "7" = 7 ∧
    sanitizePageSize "1000" = 50 ∧ sanitizePageSize "abc" = 50 ∧
    totalPagesCalc 0 (sanitizePageSize "") = 1 ∧
    totalPagesCalc 101 (sanitizePageSize "") ≤ 3 ∧
    clampPage 9 3 = 3 ∧ clampPage 2 3 = 2 := by
  obtain ⟨hd, -, -, -, -, -, hpd, -, -, -, -, hz, hc1, hc2⟩ :=
    claim_C3_pagination_params "" "" 0
  obtain ⟨-, -, -, hsup, -, -, -, -, -, -, -, -, -, -⟩ :=
    claim_C3_pagination_params "7" "" 0
  obtain ⟨-, -, -, -, hout, -, -, -, -, -, -, -, -, -⟩ :=
    claim_C3_pagination_params "1000" "" 0
  obtain ⟨-, -, -, -, -, hnonnum, -, -, -, -, -, -, -, -⟩ :=
    claim_C3_pagination_params "abc" "" 0
  obtain ⟨-, -, -, -, -, -, -, -, -, -, hleast, -, -, -⟩ :=
    claim_C3_pagination_params "" "" 101
  refine ⟨hd rfl, hpd rfl, ?_, hout 1000 (by decide) (by decide),
    hnonnum (by decide), hz rfl, ?_, hc1 9 3 (by decide), hc2 2 3 (by decide)⟩
  · have h := hsup 7 (by decide) (by decide) (by decide)
    rw [h]
    decide
  · exact hleast 3 (by decide) (by decide)

/-- Counterexample to claim C3 as stated: the supplied value 1000 is not
clamped to the interval bound 500 — it is replaced by the default 50. -/
theorem claim_C3_counterexample :
    sanitizePageSize "1000" = 50 ∧ (50 : Nat) ≠ 500 := by decide

/-- Claim C4 (amended).  `Export` fails with the missing-required-parameter
condition exactly when the directory is readable and either no file is
selected or the directory contains no log files — independently of whether
a date range is supplied; it fails with the unsupported-format condition
for every format other than `json`/`csv` once a readable file is selected;
with format `json` or `csv` it produces a payload of the date-filtered
entries; and the client-input failures are distinct from the server-side
I/O failures. -/
theorem claim_C4_export_errors (logFiles : List String)
    (fileParam dF dT format : String) (parseRes : Option (List LogEntry)) :
    exportLogs none fileParam dF dT format parseRes = ExportResult.dirError ∧
    (exportLogs (some logFiles) fileParam dF dT format parseRes
        = ExportResult.noFileSpecified ↔ fileParam = "" ∨ logFiles = []) ∧
    (fileParam ≠ "" → logFiles ≠ [] →
      exportLogs (some logFiles) fileParam dF dT format none
        = ExportResult.fileError) ∧
    (∀ logs : List LogEntry, fileParam ≠ "" → logFiles ≠ [] →
      format ≠ "json" → format ≠ "csv" →
      exportLogs (some logFiles) fileParam dF dT format (some logs)
        = ExportResult.invalidFormat) ∧
    (∀ logs : List LogEntry, fileParam ≠ "" → logFiles ≠ [] →
      exportLogs (some logFiles) fileParam dF dT "json" (some logs)
        = ExportResult.jsonPayload fileParam
            (filterLogsByDate logs dF dT).length (filterLogsByDate logs dF dT)) ∧
    (∀ logs : List LogEntry, fileParam ≠ "" → logFiles ≠ [] →
      exportLogs (some logFiles) fileParam dF dT "csv" (some logs)
        = ExportResult.csvPayload (filterLogsByDate logs dF dT)) ∧
    ExportResult.noFileSpecified ≠ ExportResult.dirError ∧
    ExportResult.noFileSpecified ≠ ExportResult.fileError ∧
    ExportResult.invalidFormat ≠ ExportResult.dirError ∧
    ExportResult.invalidFormat ≠ ExportResult.fileError := by
  refine ⟨rfl, ⟨?_, ?_⟩, ?_, ?_, ?_, ?_, by decide, by decide, by decide, by decide⟩
  · intro h
    by_contra hc
    push_neg at hc
    cases parseRes with
    | none =>
        simp only [exportLogs] at h
        rw [if_neg (by tauto)] at h
        exact ExportResult.noConfusion h
    | some logs =>
        simp only [exportLogs] at h
        rw [if_neg (by tauto)] at h
        by_cases hj : format = "json"
        · rw [if_pos hj] at h
          exact ExportResult.noConfusion h
        · rw [if_neg hj] at h
          by_cases hcsv : format = "csv"
          · rw [if_pos hcsv] at h
            exact ExportResult.noConfusion h
          · rw [if_neg hcsv] at h
            exact ExportResult.noConfusion h
  · intro h
    simp only [exportLogs]
    rw [if_pos h]
  · intro h1 h2
    simp only [exportLogs]
    rw [if_neg (by tauto)]
  · intro logs h1 h2 h3 h4
    simp only [exportLogs]
    rw [if_neg (by tauto), if_neg h3, if_neg h4]
  · intro logs h1 h2
    simp only [exportLogs]
    rw [if_neg (by tauto)]
    simp
  · intro logs h1 h2
    simp only [exportLogs]
    rw [if_neg (by tauto)]
    simp

/-- Concrete instance for claim C4: an unsupported format is rejected as a
client error and a supported one yields the JSON payload. -/
theorem claim_C4_witness :
    exportLogs (some ["app.log"]) "app.log" "" "" "xml" (some [demoEntryJan15])
      = ExportResult.invalidFormat ∧
    exportLogs (some ["app.log"]) "app.log" "" "" "json" (some [demoEntryJan15])
      = ExportResult.jsonPayload "app.log" 1 [demoEntryJan15] := by
  obtain ⟨-, -, -, hinv, hjson, -, -⟩ :=
    claim_C4_export_errors ["app.log"] "app.log" "" "" "xml" (some [demoEntryJan15])
  refine ⟨hinv [demoEntryJan15] (by decide) (by decide) (by decide) (by decide), ?_⟩
  rw [hjson [demoEntryJan15] (by decide) (by decide)]
  decide

/-- Counterexample to claim C4 as stated: with no file selected but a date
range supplied, `Export` still fails with the missing-required-parameter
condition, so that failure is not restricted to "no file and no date
range". -/
theorem claim_C4_counterexample :
    exportLogs (some ["app.log"]) "" "2025-01-01" "" "json" (some [])
      = ExportResult.noFileSpecified ∧ ("2025-01-01" : String) ≠ "" := by decide

/-- Claim C5.  For every filtered entry sequence and sanitized page size,
concatenating the slices served for pages 1 through `totalPages`
reconstructs exactly the sequence in its original order, with no
duplicates and no gaps. -/
theorem claim_C5_pagination_complete (logs : List LogEntry) (psParam : String) :
    ((List.range (totalPagesCalc logs.length (sanitizePageSize psParam))).map
        (fun i => paginateSlice logs (i + 1) (sanitizePageSize psParam))).flatten
      = logs := by
  have hP := (sanitizePageSize_mem psParam).1
  exact join_paginate (sanitizePageSize psParam)
    (totalPagesCalc logs.length (sanitizePageSize psParam)) logs
    (totalPagesCalc_pos _ _) (totalPagesCalc_mul_ge _ _ hP)

/-- Claim C6.  With two parsable calendar-date bounds the Date-Range Filter
returns exactly the subsequence of entries whose timestamps parse and fall
within `[from 00:00:00, to 23:59:59]` inclusive; with no bound supplied it
returns the input unchanged; and whenever any bound is supplied, every
returned entry has a parsable timestamp (empty or unparsable timestamps
are excluded). -/
theorem claim_C6_date_filter (logs : List LogEntry) (dF dT : String)
    (f t : GoDateTime) (hF : parseGoDate dF = some f)
    (hT : parseGoDate dT = some t) :
    filterLogsByDate logs dF dT
      = logs.filter (fun e =>
          match parseGoDateTime e.timestamp with
          | some lt =>
              decide (toSecs f ≤ toSecs lt) && decide (toSecs lt ≤ toSecs t + 86399)
          | none => false) ∧
    filterLogsByDate logs "" "" = logs ∧
    (∀ dF' dT' : String, ¬(dF' = "" ∧ dT' = "") →
      ∀ e ∈ filterLogsByDate logs dF' dT', (parseGoDateTime e.timestamp).isSome) := by
  refine ⟨?_, ?_, ?_⟩
  · rw [filterLogsByDate_eq_filter logs dF dT
      (fun h => parseGoDate_ne_empty hF h.1)]
    exact List.filter_congr (fun e _ => filterIncludes_of_parse dF dT f t hF hT e)
  · unfold filterLogsByDate
    rw [if_pos ⟨rfl, rfl⟩]
  · intro dF' dT' hne e he
    rw [filterLogsByDate_eq_filter logs dF' dT' hne] at he
    exact filterIncludes_parses dF' dT' e (List.of_mem_filter he)

set_option maxRecDepth 4000 in
/-- Concrete instance for claim C6: entries timestamped on 2025-01-01,
2025-01-15 and 2025-02-01 filtered with bounds 2025-01-10 .. 2025-01-20
yield exactly the 2025-01-15 entry. -/
theorem claim_C6_witness :
    filterLogsByDate [demoEntryJan1, demoEntryJan15, demoEntryFeb1]
        "2025-01-10" "2025-01-20"
      = [demoEntryJan15] := by
  rw [(claim_C6_date_filter [demoEntryJan1, demoEntryJan15, demoEntryFeb1]
    "2025-01-10" "2025-01-20" ⟨2025, 1, 10, 0, 0, 0⟩ ⟨2025, 1, 20, 0, 0, 0⟩
    (by decide) (by decide)).1]
  decide

/-- Claim C7.  The parser returns one entry per non-blank line that decodes
as a JSON-object-shaped record, in the reverse of on-disk append order,
silently dropping every blank or undecodable line; in particular on-disk
lines `[A, B, C]` (with two blank/undecodable lines interspersed) yield
`[C, B, A]`. -/
theorem claim_C7_parse_order (decode : String → Option LogEntry)
    (lines : List String) :
    parseLogFileLines decode lines
      = (lines.filterMap (parsedLine decode)).reverse ∧
    parseLogFileLines demoDecode ["A", "   ", "not json", "B", "C"]
      = [normalizeEntry ⟨"2025-01-03T01:00:00Z", "ERROR", "C", []⟩,
         normalizeEntry ⟨"2025-01-02T01:00:00Z", "", "B", []⟩,
         normalizeEntry ⟨"2025-01-01T01:00:00Z", "INFO", "A", []⟩] :=
  ⟨parseLogFileLines_eq decode lines, by decide⟩

/-- Claim C8.  Every entry produced by the parser arises from a decoded raw
record by normalization: its level is `"info"` when the raw level is
absent/empty and the lowercased raw level otherwise, and its timestamp is
re-rendered to the `YYYY-MM-DD HH:MM:SS` display format whenever the raw
value parses as RFC 3339 and left as-is otherwise — as witnessed on a
`Z`-zoned timestamp with uppercase level, an offset-zoned timestamp with
missing level, and an unparsable timestamp. -/
theorem claim_C8_normalization (decode : String → Option LogEntry)
    (lines : List String) (entry : LogEntry)
    (h : entry ∈ parseLogFileLines decode lines) :
    (∃ raw : LogEntry,
      entry = normalizeEntry raw ∧
      entry.level = (if raw.level = "" then "info" else goToLower raw.level) ∧
      entry.timestamp =
        (match parseRFC3339 raw.timestamp with
         | some t => formatDisplay t
         | none => raw.timestamp)) ∧
    normalizeEntry ⟨"2025-01-15T10:30:00Z", "ERROR", "m", []⟩
      = ⟨"2025-01-15 10:30:00", "error", "m", []⟩ ∧
    normalizeEntry ⟨"2025-01-15T10:30:00+07:00", "", "m", []⟩
      = ⟨"2025-01-15 10:30:00", "info", "m", []⟩ ∧
    normalizeEntry ⟨"not-a-time", "WARN", "m", []⟩
      = ⟨"not-a-time", "warn", "m", []⟩ := by
  refine ⟨?_, by decide, by decide, by decide⟩
  rw [parseLogFileLines_eq, List.mem_reverse, List.mem_filterMap] at h
  obtain ⟨line, -, hline⟩ := h
  unfold parsedLine at hline
  by_cases hblank : goTrimSpace line = ""
  · rw [if_pos hblank] at hline
    exact absurd hline (by simp)
  · rw [if_neg hblank] at hline
    cases hdec : decode (goTrimSpace line) with
    | none =>
        rw [hdec] at hline
        exact absurd hline (by simp)
    | some raw =>
        rw [hdec] at hline
        have hn : normalizeEntry raw = entry := by simpa using hline
        refine ⟨raw, hn.symm, ?_, ?_⟩
        · rw [← hn]
          rfl
        · rw [← hn]
          show (if raw.timestamp ≠ "" then
              match parseRFC3339 raw.timestamp with
              | some t => formatDisplay t
              | none => raw.timestamp
            else raw.timestamp) = _
          by_cases hts : raw.timestamp = ""
          · rw [if_neg (by simp [hts]), hts, parseRFC3339_empty]
          · rw [if_pos hts]

/-- Concrete instance for claim C8: the single parsed entry of a one-line
file is the normalization of some decoded raw record. -/
theorem claim_C8_witness :
    ∃ raw : LogEntry,
      (⟨"2025-01-01 01:00:00", "info", "A", []⟩ : LogEntry)
        = normalizeEntry raw ∧
      (⟨"2025-01-01 01:00:00", "info", "A", []⟩ : LogEntry).level
        = (if raw.level = "" then "info" else goToLower raw.level) ∧
      (⟨"2025-01-01 01:00:00", "info", "A", []⟩ : LogEntry).timestamp
        = (match parseRFC3339 raw.timestamp with
           | some t => formatDisplay t
           | none => raw.timestamp) :=
  (claim_C8_normalization demoDecode ["A"]
    ⟨"2025-01-01 01:00:00", "info", "A", []⟩ (by decide)).1

/-- Claim C9.  Running the retention cleanup twice in succession over the
same directory with the same cutoff (and the same per-file fault
behaviour) deletes zero files on the second run. -/
theorem claim_C9_cleanup_idempotent (env : FsEnv) (cutoff : Int)
    (files : List GoFileInfo) :
    (cleanupLogsWalk env cutoff
        ((cleanupLogsWalk env cutoff files).remaining)).deletedCount = 0 := by
  unfold cleanupLogsWalk
  rw [cleanup_foldl_spec, cleanup_foldl_spec]
  simp only [List.nil_append, Nat.zero_add]
  rw [List.filter_filter]
  have hnone : ∀ f ∈ files,
      ¬(cleanupDeletes env cutoff f && cleanupKeeps env cutoff f) = true := by
    intro f _
    unfold cleanupDeletes cleanupKeeps
    by_cases hs : env.statFails f.path <;>
      by_cases hr : env.removeFails f.path <;>
      by_cases hm : f.mtime < cutoff <;>
      simp [hs, hr, hm]
  rw [List.filter_eq_nil_iff.mpr hnone]
  rfl

/-- Claim C10.  In `GetLogStats`, a file whose metadata read fails is still
counted in `total_files` (the counter is incremented before the metadata
is read) but contributes nothing to the cumulative size or to the
oldest/newest modification dates, and the walk continues past it: the file
count equals the number of walked files while size and min/max dates range
over exactly the stat-readable files. -/
theorem claim_C10_stats_stat_failure (env : FsEnv) (files : List GoFileInfo) :
    (getLogStatsWalk env files).totalFiles = files.length ∧
    (getLogStatsWalk env files).totalSize
      = ((files.filter (statOk env)).map GoFileInfo.size).sum ∧
    (getLogStatsWalk env files).oldest
      = ((files.filter (statOk env)).map GoFileInfo.mtime).min? ∧
    (getLogStatsWalk env files).newest
      = ((files.filter (statOk env)).map GoFileInfo.mtime).max? := by
  unfold getLogStatsWalk
  rw [stats_foldl_spec]
  exact ⟨by simp, by simp, minFold_none_eq_min? _, maxFold_none_eq_max? _⟩

end Galaplate
